import Mathlib

/-!
Shallow embedding of the `rca` repository's analysis pipeline
(`src/target.rs`, `src/dependencies.rs`, `src/download.rs`, `src/quality.rs`)
together with theorems settling the specification's claims about it.

Text is modelled as `List Char`; machine integers (`u32`, `u64`) as `Nat`
with explicit bounds where the source can fail on overflow; Rust panics
(`unwrap`, out-of-bounds indexing) as `Option.none`; the filesystem and the
external process runner as explicit parameters.
-/

namespace Rca

/-! ### Generic text helpers mirroring Rust `str` operations -/

/-- Rust `str::split(sep)` for a one-character separator: the result is
never empty, and empty fields are kept (`"a,".split(',') = ["a", ""]`). -/
def splitOnChar (sep : Char) : List Char → List (List Char)
  | [] => [[]]
  | c :: cs =>
    if c = sep then [] :: splitOnChar sep cs
    else
      match splitOnChar sep cs with
      | [] => [[c]]
      | g :: gs => (c :: g) :: gs

/-- Rust `str::trim`: remove leading and trailing whitespace. -/
def trimChars (cs : List Char) : List Char :=
  ((cs.dropWhile Char.isWhitespace).reverse.dropWhile Char.isWhitespace).reverse

/-- Substring containment, as in Rust `str::contains(&str)`. -/
def isSubstr (needle hay : List Char) : Bool :=
  (List.range (hay.length + 1)).any (fun i => needle.isPrefixOf (hay.drop i))

/-- Value of a digit string, most significant digit first. -/
def digitsVal (cs : List Char) : Nat :=
  cs.foldl (fun a c => 10 * a + (c.toNat - 48)) 0

/-- Digit-string recognition underlying Rust integer parsing: `some` exactly
when the string is non-empty and all digits. -/
def digitsToNat? (cs : List Char) : Option Nat :=
  if cs ≠ [] ∧ cs.all Char.isDigit then some (digitsVal cs) else none

/-- Rust `str::parse::<u32>()`: optional leading `+`, digits, overflow is an
error. -/
def parseU32 (cs : List Char) : Option Nat :=
  let cs := if cs.headD ' ' = '+' then cs.tail else cs
  match digitsToNat? cs with
  | some n => if n < 2 ^ 32 then some n else none
  | none => none

/-- Rust `str::parse::<f64>()`, modelled over `ℚ` on the plain decimal
fragment (optional sign, digits, optional fractional part); the exotic
forms (exponents, `inf`, `NaN`) do not occur in the inputs considered. -/
def parseF64 (cs : List Char) : Option ℚ :=
  let (isNeg, rest) : Bool × List Char :=
    match cs with
    | '-' :: r => (true, r)
    | '+' :: r => (false, r)
    | _ => (false, cs)
  let signed : ℚ → ℚ := fun q => if isNeg then -q else q
  match splitOnChar '.' rest with
  | [intp] =>
    if intp ≠ [] ∧ intp.all Char.isDigit then some (signed (digitsVal intp)) else none
  | [intp, frac] =>
    if (intp ≠ [] ∨ frac ≠ []) ∧ intp.all Char.isDigit ∧ frac.all Char.isDigit then
      some (signed ((digitsVal intp : ℚ) + (digitsVal frac : ℚ) / 10 ^ frac.length))
    else none
  | _ => none

/-! ### A small regular-expression engine (Brzozowski derivatives)

`target.rs` classifies its input with the `regex` crate; we embed the one
pattern it uses.  `Regex::is_match` is an unanchored search, modelled by
`searchRE`; an anchored whole-string match is `matchFull`. -/

/-- Regular expressions over characters; `chr p` matches one character
satisfying `p` (a character class). -/
inductive RE where
  | emp : RE
  | eps : RE
  | chr : (Char → Bool) → RE
  | alt : RE → RE → RE
  | cat : RE → RE → RE
  | star : RE → RE

/-- Does the expression accept the empty string? -/
def nullable : RE → Bool
  | .emp => false
  | .eps => true
  | .chr _ => false
  | .alt r s => nullable r || nullable s
  | .cat r s => nullable r && nullable s
  | .star _ => true

/-- Alternation, simplifying the failure element. -/
def mkAlt : RE → RE → RE
  | .emp, s => s
  | r, .emp => r
  | r, s => .alt r s

/-- Concatenation, simplifying the unit and the failure element. -/
def mkCat : RE → RE → RE
  | .emp, _ => .emp
  | _, .emp => .emp
  | .eps, s => s
  | r, .eps => r
  | r, s => .cat r s

/-- Brzozowski derivative with respect to one character. -/
def deriv (r : RE) (a : Char) : RE :=
  match r with
  | .emp => .emp
  | .eps => .emp
  | .chr p => if p a then .eps else .emp
  | .alt r s => mkAlt (deriv r a) (deriv s a)
  | .cat r s =>
    if nullable r then mkAlt (mkCat (deriv r a) s) (deriv s a)
    else mkCat (deriv r a) s
  | .star r => mkCat (deriv r a) (.star r)

/-- Anchored match: the whole string is accepted by `r`. -/
def matchFull (r : RE) : List Char → Bool
  | [] => nullable r
  | c :: cs => matchFull (deriv r c) cs

/-- Does some prefix of the string match `r`? -/
def matchFrom (r : RE) : List Char → Bool
  | [] => nullable r
  | c :: cs => nullable r || matchFrom (deriv r c) cs

/-- Unanchored search, the semantics of `Regex::is_match`: some substring
(starting at any position) matches `r`. -/
def searchRE (r : RE) : List Char → Bool
  | [] => nullable r
  | c :: cs => matchFrom r (c :: cs) || searchRE r cs

/-- Literal string. -/
def lit (s : List Char) : RE :=
  s.foldr (fun c r => .cat (.chr (fun x => x == c)) r) .eps

/-- `r?` -/
def opt (r : RE) : RE := .alt .eps r

/-- `r+` -/
def plus (r : RE) : RE := .cat r (.star r)

/-- The `\w` class (modelled on the ASCII fragment: letters, digits, `_`). -/
def wordChar (c : Char) : Bool := c.isAlphanum || c == '_'

/-- The class `[\w\.]`. -/
def hostChar (c : Char) : Bool := wordChar c || c == '.'

/-- The class `[\w\.@:/\-~]`. -/
def bodyChar (c : Char) : Bool :=
  wordChar c || c == '.' || c == '@' || c == ':' || c == '/' || c == '-' || c == '~'

/-- The remote-repository pattern of `TargetPath::new`
(`((git|ssh|http(s)?)|(git@[\w\.]+))(:(//)?)([\w\.@:/\-~]+)(\.git)(/)?`). -/
def remotePattern : RE :=
  .cat
    (.alt
      (.alt (lit "git".toList)
        (.alt (lit "ssh".toList) (.cat (lit "http".toList) (opt (.chr (fun c => c == 's'))))))
      (.cat (lit "git@".toList) (plus (.chr hostChar))))
    (.cat (.cat (.chr (fun c => c == ':')) (opt (lit "//".toList)))
      (.cat (plus (.chr bodyChar))
        (.cat (lit ".git".toList) (opt (.chr (fun c => c == '/'))))))

/-! ### `src/target.rs` — target classification -/

/-- Error type of `TargetPath` operations (`target.rs`). -/
inductive TargetPathError where
  | LocalPathDoesNotExist : String → TargetPathError
deriving DecidableEq, Repr

/-- A target: a local filesystem path or a remote repository URL. -/
inductive TargetPath where
  | Path : String → TargetPath
  | RemoteRepository : String → TargetPath
deriving DecidableEq, Repr

/-- The filesystem, as observed by `Path::exists`. -/
structure FS where
  pathExists : String → Bool

/-- `TargetPath::new`: if the remote regex matches (unanchored search), the
input is wrapped verbatim as a `RemoteRepository`; otherwise the filesystem
is consulted: an existing path becomes `Path`, a missing one the error
`LocalPathDoesNotExist` carrying the input.  The second component records
whether the filesystem was accessed. -/
def TargetPath.new (fs : FS) (target_path : String) :
    Except TargetPathError TargetPath × Bool :=
  if searchRE remotePattern target_path.toList then
    (.ok (.RemoteRepository target_path), false)
  else
    if fs.pathExists target_path then (.ok (.Path target_path), true)
    else (.error (.LocalPathDoesNotExist target_path), true)

/-! ### `src/dependencies.rs` — dependency installation -/

/-- `RUSTUP_COMPONENT_LIST`. -/
def RUSTUP_COMPONENT_LIST : List String := ["cargo-clippy", "rustfmt"]

/-- `SYSTEM_BINARY_LIST`. -/
def SYSTEM_BINARY_LIST : List String := ["git"]

/-- `CARGO_SUBCOMMAND_LIST`. -/
def CARGO_SUBCOMMAND_LIST : List String :=
  ["cargo-outdated", "cargo-audit", "cargo-tarpaulin", "cargo-crev",
   "cargo-install-update", "cargo-expand", "cargo-modules", "tokei"]

/-- `DependencyError` (`dependencies.rs`). -/
inductive DependencyError where
  | UpdateFailed : DependencyError
  | ComponentInstallFailed : List String → DependencyError
  | SubcommandsInstallFailed : List String → DependencyError
  | SystemBinariesNotInstalled : List String → DependencyError
deriving DecidableEq, Repr

/-- The environment observed by `dependencies.rs`: the presence probe
`which::which(name).is_ok()` and the success of
`execute_command_no_path(program, args, false)`. -/
structure Env where
  isInstalled : String → Bool
  execOk : String → List String → Bool

/-- A record of the external commands a run attempted, in order. -/
abbrev Trace := List (String × List String)

/-- Install arguments for one rustup component
(the `args` computed inside `install_rustup_components`). -/
def componentArgs (component : String) : List String :=
  if component = "rustfmt" then
    ["component", "add", component, "--toolchain", "stable"]
  else
    ["component", "add", String.mk ((splitOnChar '-' component.toList).getD 1 [])]

/-- Install arguments for one cargo subcommand
(the `args` computed inside `install_cargo_subcommands`). -/
def subcommandArgs (subcommand : String) : List String :=
  if subcommand = "cargo-outdated" then ["install", "--locked", subcommand]
  else if subcommand = "cargo-install-update" then ["install", "cargo-update"]
  else if subcommand = "cargo-modules" then ["install", subcommand, "--version", "0.5.14"]
  else ["install", subcommand]

/-- The shared install loop of `install_rustup_components` and
`install_cargo_subcommands`: for each item, probe presence first; if the
item is missing, run the install command and record it; items whose install
command failed are collected.  Returns the failed items and the commands
attempted. -/
def installLoop (e : Env) (prog : String) (argsFor : String → List String) :
    List String → List String × Trace
  | [] => ([], [])
  | item :: rest =>
    if e.isInstalled item then installLoop e prog argsFor rest
    else
      let ok := e.execOk prog (argsFor item)
      let (failed, tr) := installLoop e prog argsFor rest
      ((if ok then failed else item :: failed), (prog, argsFor item) :: tr)

/-- `update`: runs `rustup self update` and `rustup update` (both,
unconditionally); fails when either command failed. -/
def update (e : Env) : Option DependencyError × Trace :=
  let ok1 := e.execOk "rustup" ["self", "update"]
  let ok2 := e.execOk "rustup" ["update"]
  (if !ok1 || !ok2 then some .UpdateFailed else none,
   [("rustup", ["self", "update"]), ("rustup", ["update"])])

/-- `install_rustup_components`. -/
def install_rustup_components (e : Env) : Option DependencyError × Trace :=
  let (install_failed, tr) := installLoop e "rustup" componentArgs RUSTUP_COMPONENT_LIST
  (if install_failed.isEmpty then none else some (.ComponentInstallFailed install_failed), tr)

/-- `install_cargo_subcommands`. -/
def install_cargo_subcommands (e : Env) : Option DependencyError × Trace :=
  let (install_failed, tr) := installLoop e "cargo" subcommandArgs CARGO_SUBCOMMAND_LIST
  (if install_failed.isEmpty then none else some (.SubcommandsInstallFailed install_failed), tr)

/-- `check_system_binaries`: probe each binary; no install is attempted. -/
def check_system_binaries (e : Env) : Option DependencyError × Trace :=
  let not_installed := SYSTEM_BINARY_LIST.filter (fun b => !e.isInstalled b)
  (if not_installed.isEmpty then none else some (.SystemBinariesNotInstalled not_installed), [])

/-- `update_and_install_dependencies`: run the four phases in order,
pushing each phase's error (if any) into one vector, and succeed exactly
when that vector stayed empty. -/
def update_and_install_dependencies (e : Env) :
    Except (List DependencyError) Unit × Trace :=
  let (e1, t1) := update e
  let (e2, t2) := install_rustup_components e
  let (e3, t3) := install_cargo_subcommands e
  let (e4, t4) := check_system_binaries e
  let dependency_error := e1.toList ++ e2.toList ++ e3.toList ++ e4.toList
  (if dependency_error.isEmpty then .ok () else .error dependency_error,
   t1 ++ t2 ++ t3 ++ t4)

/-! ### `src/download.rs` — materializing a remote repository -/

/-- `create_path_from_repo_name`: the repository name is the last
`'/'`-separated segment of the URL, cut at its first `'.'`
(`split('/').last()` then `split('.').next()`), pushed onto the current
working directory. -/
def create_path_from_repo_name (cwd git_url : List Char) : List Char :=
  let repository_name :=
    (splitOnChar '.' ((splitOnChar '/' git_url).getLastD [])).headD []
  cwd ++ '/' :: repository_name

/-- Outcome of `download_from_git`: the returned path, the filesystem
after the call, and whether a fetch (`git clone`) was performed. -/
structure DownloadResult where
  path : List Char
  fs : List (List Char)
  fetched : Bool
deriving DecidableEq, Repr

/-- `download_from_git`: derive the local path from the URL; when it does
not exist, delegate to the external clone collaborator (`git clone`),
whose effect on the filesystem is the parameter `cloneEff`; when it
exists, skip the fetch.  The derived path is returned either way. -/
def download_from_git (cwd : List Char) (fs : List (List Char))
    (cloneEff : List (List Char) → List Char → List (List Char))
    (git_url : List Char) : DownloadResult :=
  if create_path_from_repo_name cwd git_url ∈ fs then
    ⟨create_path_from_repo_name cwd git_url, fs, false⟩
  else
    ⟨create_path_from_repo_name cwd git_url, cloneEff fs git_url, true⟩

/-! ### `src/report.rs` — the report data model -/

/-- `LanguageInfo` (`report.rs`).  The `usize` counters are `Nat`. -/
structure LanguageInfo where
  language : String
  blanks : Nat
  code : Nat
  comments : Nat
deriving DecidableEq, Repr

/-- `Sloc` (`report.rs`). -/
structure Sloc where
  language_info : List LanguageInfo
  code : Nat
  comments : Nat
  inaccurate : Bool
deriving DecidableEq, Repr

/-- `FileCoverage` (`report.rs`); the file name is kept as text. -/
structure FileCoverage where
  name : List Char
  uncovered_lines : List Nat
deriving DecidableEq, Repr

/-- `Coverage` (`report.rs`); the `f64` percentage is modelled as `ℚ`. -/
structure Coverage where
  file_coverage : List FileCoverage
  total_coverage_percentage : ℚ
  num_covered_lines : Nat
  total_lines : Nat
deriving DecidableEq, Repr

/-! ### `src/quality.rs` — parsing external tool output

Panics (`unwrap` on a missing key, a failed numeric parse, out-of-bounds
indexing) are modelled as `Option.none`; a `some` result is the value the
Rust function returns normally. -/

/-- `serde_json::Value`, restricted to the shapes `as_u64`/`as_bool`/
`as_object` distinguish; numbers are integer-valued here (the inputs at
issue contain no floating-point numbers). -/
inductive Json where
  | null : Json
  | bool : Bool → Json
  | num : Int → Json
  | str : String → Json
  | arr : List Json → Json
  | obj : List (String × Json) → Json

/-- `Value::as_object`. -/
def Json.asObject : Json → Option (List (String × Json))
  | .obj fields => some fields
  | _ => none

/-- `Value::as_u64`: only a non-negative integer number. -/
def Json.asU64 : Json → Option Nat
  | .num n => if 0 ≤ n ∧ n < 2 ^ 64 then some n.toNat else none
  | _ => none

/-- `Value::as_bool`. -/
def Json.asBool : Json → Option Bool
  | .bool b => some b
  | _ => none

/-- `Map::get` / the panicking `Map` index operator (`value["key"]`):
`none` models the "no entry found for key" panic. -/
def jsonLookup (key : String) (fields : List (String × Json)) : Option Json :=
  (fields.find? (fun kv => kv.1 = key)).map Prod.snd

/-- `Map::remove(key).unwrap()`: fails when the key is absent, otherwise
drops the (first) binding of the key. -/
def jsonRemove (key : String) (fields : List (String × Json)) :
    Option (List (String × Json)) :=
  if (fields.find? (fun kv => kv.1 = key)).isSome then
    some (fields.eraseP (fun kv => kv.1 = key))
  else none

/-- One iteration of the loop in `parse_sloc_json`: discard the `reports`
and `children` members (panicking when absent), then either fold the
`"Total"` entry into the scalar fields or append one `LanguageInfo`. -/
def slocStep (json_report : Sloc) (kv : String × Json) : Option Sloc := do
  let value ← kv.2.asObject
  let value ← jsonRemove "reports" value
  let value ← jsonRemove "children" value
  if kv.1 = "Total" then
    let code ← (← jsonLookup "code" value).asU64
    let comments ← (← jsonLookup "comments" value).asU64
    let inaccurate ← (← jsonLookup "inaccurate" value).asBool
    pure { json_report with code := code, comments := comments, inaccurate := inaccurate }
  else
    let blanks ← (← jsonLookup "blanks" value).asU64
    let code ← (← jsonLookup "code" value).asU64
    let comments ← (← jsonLookup "comments" value).asU64
    pure { json_report with
      language_info := json_report.language_info ++
        [{ language := kv.1, blanks := blanks, code := code, comments := comments }] }

/-- `parse_sloc_json` (`quality.rs`): fold `slocStep` over the entries of
the JSON object (a `serde_json::Map` iterates in ascending key order; the
list is that iteration sequence). -/
def parse_sloc_json (json : List (String × Json)) : Option Sloc :=
  json.foldlM slocStep { language_info := [], code := 0, comments := 0, inaccurate := false }

/-- Rust `str::split` with a two-character pattern such as `"||"`
(non-overlapping matches, left to right). -/
def splitOnPair (a b : Char) : List Char → List (List Char)
  | [] => [[]]
  | [c] => [[c]]
  | c :: d :: cs =>
    if c = a ∧ d = b then [] :: splitOnPair a b cs
    else
      match splitOnPair a b (d :: cs) with
      | [] => [[c]]
      | g :: gs => (c :: g) :: gs

/-- `parse_tarpaulin_output`: split the captured text on `"||"`, drop the
first two sections (`Vec::remove(0)` twice — a panic when there are fewer
than two), and trim the rest. -/
def parse_tarpaulin_output (tarpaulin_output : List Char) :
    Option (List (List Char)) :=
  match splitOnPair '|' '|' tarpaulin_output with
  | _ :: _ :: rest => some (rest.map trimChars)
  | _ => none

/-- `parse_total_coverage_data`: the summary line is comma-separated; the
first field holds the percentage up to `%`, the second field's first
space-separated word is `covered/total`. -/
def parse_total_coverage_data (total_coverage_data : List Char) :
    Option Coverage := do
  let splitted_total := (splitOnChar ',' total_coverage_data).map trimChars
  let field0 ← splitted_total.get? 0
  let coverage_percentage ← parseF64 ((splitOnChar '%' field0).headD [])
  let field1 ← splitted_total.get? 1
  let num_lines := splitOnChar '/' ((splitOnChar ' ' field1).headD [])
  let num_covered_lines ← parseU32 (← num_lines.get? 0)
  let total_lines ← parseU32 (← num_lines.get? 1)
  pure { file_coverage := [], total_coverage_percentage := coverage_percentage,
         num_covered_lines := num_covered_lines, total_lines := total_lines }

/-- One token of an uncovered-lines list: either a single integer, or a
dash-separated inclusive range `start-end` expanded to `[start, end]`
(`(start..=end)`, which is empty when `start > end`). -/
def expandToken (x : List Char) : Option (List Nat) :=
  if x.contains '-' then do
    let splitted := splitOnChar '-' x
    let start ← parseU32 (← splitted.get? 0)
    let «end» ← parseU32 (← splitted.get? 1)
    pure (List.range' start («end» + 1 - start))
  else do
    pure [← parseU32 x]

/-- `parse_each_file_uncovered_lines`: each section is
`filename: tok, tok, ...`; tokens expand through `expandToken` and are
concatenated. -/
def parse_each_file_uncovered_lines (files : List (List Char)) :
    Option (List FileCoverage) :=
  files.mapM (fun uncovered_data => do
    let splitted_uncovered := splitOnChar ':' uncovered_data
    let filename ← splitted_uncovered.get? 0
    let rest ← splitted_uncovered.get? 1
    let uncovered_lines := (splitOnChar ',' rest).map trimChars
    let expanded ← uncovered_lines.mapM expandToken
    pure { name := filename, uncovered_lines := expanded.flatten })

/-- The parsing part of `search_code_coverage_json`, applied to the
captured `cargo tarpaulin` output: strip the preamble, locate the section
holding the `"Total Lines"` marker (`position(..).unwrap()`), parse the
last section as the summary and all sections before the marker as per-file
uncovered lines. -/
def coverageFromOutput (tarpaulin_output : List Char) : Option Coverage := do
  let parsed_output ← parse_tarpaulin_output tarpaulin_output
  let coverege_index ← parsed_output.findIdx? (fun x => isSubstr "Total Lines".toList x)
  let uncovered := parsed_output.take coverege_index
  let total ← parsed_output.getLast?
  let code_coverage ← parse_total_coverage_data total
  let file_coverage ← parse_each_file_uncovered_lines uncovered
  pure { code_coverage with file_coverage := file_coverage }

/-! ## General lemmas -/

/-- An anchored full match yields a prefix match. -/
theorem matchFrom_of_matchFull (cs : List Char) :
    ∀ r : RE, matchFull r cs = true → matchFrom r cs = true := by
  induction cs with
  | nil => intro r h; simpa [matchFull, matchFrom] using h
  | cons c cs ih =>
    intro r h
    simp only [matchFull] at h
    simp only [matchFrom, Bool.or_eq_true]
    exact Or.inr (ih _ h)

/-- An anchored full match makes the unanchored search succeed. -/
theorem searchRE_of_matchFull (r : RE) (cs : List Char)
    (h : matchFull r cs = true) : searchRE r cs = true := by
  cases cs with
  | nil => simpa [matchFull, searchRE] using h
  | cons c cs =>
    simp only [searchRE, Bool.or_eq_true]
    exact Or.inl (matchFrom_of_matchFull _ _ h)

/-- Splitting never produces the empty list of fields. -/
theorem splitOnChar_ne_nil (c : Char) (cs : List Char) : splitOnChar c cs ≠ [] := by
  cases cs with
  | nil => simp [splitOnChar]
  | cons x xs =>
    simp only [splitOnChar]
    split
    · simp
    · rcases h : splitOnChar c xs with _ | ⟨g, gs⟩ <;> simp

/-- Splitting a string that starts with the separator. -/
theorem splitOnChar_cons_self (c : Char) (ys : List Char) :
    splitOnChar c (c :: ys) = [] :: splitOnChar c ys := by
  simp [splitOnChar]

/-- A string free of the separator is a single field. -/
theorem splitOnChar_eq_single (c : Char) (cs : List Char) (h : c ∉ cs) :
    splitOnChar c cs = [cs] := by
  induction cs with
  | nil => simp [splitOnChar]
  | cons x xs ih =>
    simp only [List.mem_cons, not_or] at h
    have hxc : ¬ x = c := fun hx => h.1 hx.symm
    simp only [splitOnChar, if_neg hxc, ih h.2]

/-- Splitting at the first separator occurrence. -/
theorem splitOnChar_append_cons (c : Char) (xs ys : List Char) (h : c ∉ xs) :
    splitOnChar c (xs ++ c :: ys) = xs :: splitOnChar c ys := by
  induction xs with
  | nil => simp [splitOnChar]
  | cons x xs ih =>
    simp only [List.mem_cons, not_or] at h
    have hxc : ¬ x = c := fun hx => h.1 hx.symm
    simp only [List.cons_append, splitOnChar, List.append_eq, if_neg hxc, ih h.2]

/-- A string containing the separator splits into at least two fields. -/
theorem two_le_splitOnChar_append (c : Char) (xs ys : List Char) :
    2 ≤ (splitOnChar c (xs ++ c :: ys)).length := by
  induction xs with
  | nil =>
    rw [List.nil_append, splitOnChar_cons_self]
    have := List.length_pos.2 (splitOnChar_ne_nil c ys)
    simp only [List.length_cons]
    omega
  | cons x xs ih =>
    simp only [List.cons_append, splitOnChar, List.append_eq]
    split
    · have := List.length_pos.2 (splitOnChar_ne_nil c (xs ++ c :: ys))
      simp only [List.length_cons]
      omega
    · rcases h : splitOnChar c (xs ++ c :: ys) with _ | ⟨g, gs⟩
      · exact absurd h (splitOnChar_ne_nil c _)
      · rw [h] at ih
        simp only [List.length_cons] at ih ⊢
        omega

/-- The default is irrelevant for the last element of a non-empty list. -/
theorem getLastD_of_ne_nil {α : Type} (l : List α) (d₁ d₂ : α) (h : l ≠ []) :
    l.getLastD d₁ = l.getLastD d₂ := by
  rw [List.getLastD_eq_getLast?, List.getLastD_eq_getLast?]
  rcases hl : l.getLast? with _ | a
  · exact absurd (List.getLast?_eq_none_iff.1 hl) h
  · rfl

/-- The last field of a split ignores everything before the first
separator occurrence. -/
theorem getLastD_splitOnChar_append (c : Char) (xs ys : List Char) :
    (splitOnChar c (xs ++ c :: ys)).getLastD [] =
      (splitOnChar c ys).getLastD [] := by
  induction xs with
  | nil =>
    rw [List.nil_append, splitOnChar_cons_self, List.getLastD_cons]
  | cons x xs ih =>
    simp only [List.cons_append, splitOnChar, List.append_eq]
    split
    · rw [List.getLastD_cons]
      exact ih
    · rcases h : splitOnChar c (xs ++ c :: ys) with _ | ⟨g, gs⟩
      · exact absurd h (splitOnChar_ne_nil c _)
      · have hlen := two_le_splitOnChar_append c xs ys
        rw [h] at ih hlen
        have hgs : gs ≠ [] := by
          intro hh
          rw [hh] at hlen
          simp at hlen
        rw [List.getLastD_cons]
        rw [List.getLastD_cons] at ih
        rw [← ih]
        exact getLastD_of_ne_nil _ _ _ hgs

/-- A digit is not whitespace. -/
theorem not_whitespace_of_isDigit (c : Char) (h : c.isDigit = true) :
    c.isWhitespace = false := by
  by_contra hws
  simp only [Bool.not_eq_false, Char.isWhitespace] at hws
  simp only [Bool.or_eq_true, decide_eq_true_eq] at hws
  rcases hws with ((h1 | h1) | h1) | h1 <;> subst h1 <;> exact absurd h (by decide)

/-- A character that is not a digit cannot occur in an all-digit string. -/
theorem not_mem_of_all_digit (c : Char) (cs : List Char)
    (hall : cs.all Char.isDigit = true) (hc : c.isDigit = false) : c ∉ cs := by
  intro hm
  rw [List.all_eq_true] at hall
  rw [hall c hm] at hc
  exact Bool.noConfusion hc

/-- Trimming a string whose first and last characters are not whitespace
changes nothing. -/
theorem trimChars_eq_self (a b : Char) (mid : List Char)
    (ha : a.isWhitespace = false) (hb : b.isWhitespace = false) :
    trimChars (a :: (mid ++ [b])) = a :: (mid ++ [b]) := by
  unfold trimChars
  rw [List.dropWhile_cons_of_neg (by rw [ha]; exact Bool.false_ne_true)]
  have h1 : (a :: (mid ++ [b])).reverse = b :: (a :: mid).reverse := by
    rw [show a :: (mid ++ [b]) = (a :: mid) ++ [b] from rfl, List.reverse_concat]
  rw [h1, List.dropWhile_cons_of_neg (by rw [hb]; exact Bool.false_ne_true), ← h1,
    List.reverse_reverse]

/-- Trimming absorbs a leading space. -/
theorem trimChars_cons_space (cs : List Char) :
    trimChars (' ' :: cs) = trimChars cs := by
  unfold trimChars
  rw [List.dropWhile_cons_of_pos (by decide)]

/-- A non-empty all-digit string parses as a `u32` to its digit value
provided the value fits. -/
theorem parseU32_digits (cs : List Char) (h1 : cs.all Char.isDigit = true)
    (h2 : cs ≠ []) (h3 : digitsVal cs < 2 ^ 32) :
    parseU32 cs = some (digitsVal cs) := by
  unfold parseU32
  have hplus : ¬ cs.headD ' ' = '+' := by
    cases cs with
    | nil => decide
    | cons c cs' =>
      have hc : c.isDigit = true := by
        rw [List.all_eq_true] at h1
        exact h1 c (by simp)
      intro hh
      rw [List.headD_cons] at hh
      rw [hh] at hc
      exact absurd hc (by decide)
  simp only [if_neg hplus]
  unfold digitsToNat?
  rw [if_pos ⟨h2, h1⟩]
  simp only [if_pos h3]

/-- Closed form of the install loop: an item's install command runs
exactly when its presence probe failed, and the failure bucket consists of
exactly the items that were missing and whose install command failed. -/
theorem installLoop_spec (e : Env) (prog : String) (argsFor : String → List String)
    (items : List String) :
    (installLoop e prog argsFor items).1 =
        items.filter (fun i => !e.isInstalled i && !e.execOk prog (argsFor i))
      ∧ (installLoop e prog argsFor items).2 =
        (items.filter (fun i => !e.isInstalled i)).map (fun i => (prog, argsFor i)) := by
  induction items with
  | nil => simp [installLoop]
  | cons item rest ih =>
    rcases hins : e.isInstalled item with _ | _
    · rcases hex : e.execOk prog (argsFor item) with _ | _ <;>
        simp [installLoop, hins, hex, ih.1, ih.2]
    · simp [installLoop, hins, ih.1, ih.2]

/-- One `parse_sloc_json` iteration appends the key as one language entry
unless the key is `"Total"`, which leaves the language list unchanged. -/
theorem slocStep_languages (acc acc' : Sloc) (kv : String × Json)
    (h : slocStep acc kv = some acc') :
    acc'.language_info.map (fun li => li.language) =
      acc.language_info.map (fun li => li.language) ++
        (if kv.1 = "Total" then [] else [kv.1]) := by
  unfold slocStep at h
  simp only [Option.bind_eq_bind] at h
  by_cases hk : kv.1 = "Total"
  · rw [if_pos hk]
    simp only [if_pos hk, Option.bind_eq_some, Option.pure_def,
      Option.some.injEq] at h
    obtain ⟨a1, h1, a2, h2, a3, h3, a4, h4, a5, h5, a6, h6, a7, h7, a8, h8,
      a9, h9, h⟩ := h
    subst h
    simp
  · rw [if_neg hk]
    simp only [if_neg hk, Option.bind_eq_some, Option.pure_def,
      Option.some.injEq] at h
    obtain ⟨a1, h1, a2, h2, a3, h3, a4, h4, a5, h5, a6, h6, a7, h7, a8, h8,
      a9, h9, h⟩ := h
    subst h
    simp

/-- Folding `slocStep` over a sequence of entries: the language names in
the result are the non-`"Total"` keys, in iteration order. -/
theorem sloc_fold_languages (entries : List (String × Json)) :
    ∀ (acc r : Sloc), List.foldlM slocStep acc entries = some r →
    r.language_info.map (fun li => li.language) =
      acc.language_info.map (fun li => li.language) ++
        (entries.map Prod.fst).filter (fun k => k ≠ "Total") := by
  induction entries with
  | nil =>
    intro acc r h
    cases h
    simp
  | cons kv rest ih =>
    intro acc r h
    have hfold : List.foldlM slocStep acc (kv :: rest) =
        (slocStep acc kv).bind (fun acc' => List.foldlM slocStep acc' rest) := rfl
    rw [hfold, Option.bind_eq_some] at h
    obtain ⟨acc', hstep, hrest⟩ := h
    rw [ih acc' r hrest, slocStep_languages acc acc' kv hstep]
    by_cases hk : kv.1 = "Total" <;>
      simp [hk, List.filter_cons]

/-! ## Claims -/

/-- An environment in which the component `rustfmt` is missing and its
install command fails, and the system binary `git` is missing, while
everything else is present or succeeds. -/
def envBothFail : Env where
  isInstalled := fun s => !(s == "rustfmt" || s == "git")
  execOk := fun p args =>
    !(p == "rustup" && args == ["component", "add", "rustfmt", "--toolchain", "stable"])

/-- C1: `update_and_install_dependencies` attempts all four phases in
fixed order on every call (the command trace is the concatenation of the
four phases' traces), returns `Ok` exactly when no phase reported a
failure, and otherwise returns every phase's non-empty failure bucket in
phase order; in particular, when both the component phase and the binary
phase fail, the result carries both buckets. -/
theorem dependencies_partial_failure_tolerance (e : Env) :
    ((update_and_install_dependencies e).1 = .ok () ↔
      (update e).1 = none ∧ (install_rustup_components e).1 = none ∧
      (install_cargo_subcommands e).1 = none ∧ (check_system_binaries e).1 = none)
    ∧ ((update_and_install_dependencies e).1 ≠ .ok () →
      (update_and_install_dependencies e).1 = .error
        ((update e).1.toList ++ (install_rustup_components e).1.toList ++
         (install_cargo_subcommands e).1.toList ++ (check_system_binaries e).1.toList))
    ∧ (update_and_install_dependencies e).2 =
        (update e).2 ++ (install_rustup_components e).2 ++
        (install_cargo_subcommands e).2 ++ (check_system_binaries e).2
    ∧ (update_and_install_dependencies envBothFail).1 = .error
        [.ComponentInstallFailed ["rustfmt"], .SystemBinariesNotInstalled ["git"]] := by
  refine ⟨?_, ?_, ?_, by rfl⟩
  · unfold update_and_install_dependencies
    rcases h1 : (update e).1 with _ | e1 <;>
      rcases h2 : (install_rustup_components e).1 with _ | e2 <;>
        rcases h3 : (install_cargo_subcommands e).1 with _ | e3 <;>
          rcases h4 : (check_system_binaries e).1 with _ | e4 <;>
            simp [h1, h2, h3, h4]
  · unfold update_and_install_dependencies
    rcases h1 : (update e).1 with _ | e1 <;>
      rcases h2 : (install_rustup_components e).1 with _ | e2 <;>
        rcases h3 : (install_cargo_subcommands e).1 with _ | e3 <;>
          rcases h4 : (check_system_binaries e).1 with _ | e4 <;>
            simp [h1, h2, h3, h4]
  · unfold update_and_install_dependencies
    rfl

/-- C1 witness: the theorem applied at the environment in which both the
component phase and the binary phase fail. -/
theorem dependencies_partial_failure_tolerance_witness :
    (update_and_install_dependencies envBothFail).1 = .error
        ((update envBothFail).1.toList ++
         (install_rustup_components envBothFail).1.toList ++
         (install_cargo_subcommands envBothFail).1.toList ++
         (check_system_binaries envBothFail).1.toList) :=
  (dependencies_partial_failure_tolerance envBothFail).2.1 (by
    have h0 : (update_and_install_dependencies envBothFail).1 = .error
        [.ComponentInstallFailed ["rustfmt"], .SystemBinariesNotInstalled ["git"]] := rfl
    rw [h0]
    intro hh
    exact Except.noConfusion hh)

/-- C6: in both install phases, each item's presence is probed before any
install attempt — the trace holds an install command exactly for the items
whose probe failed, so an item found present triggers no install command —
and the failure bucket holds exactly the items that were missing and whose
install command then failed. -/
theorem install_phases_probe_before_install (e : Env) :
    ((installLoop e "rustup" componentArgs RUSTUP_COMPONENT_LIST).1 =
        RUSTUP_COMPONENT_LIST.filter
          (fun i => !e.isInstalled i && !e.execOk "rustup" (componentArgs i))
      ∧ (installLoop e "rustup" componentArgs RUSTUP_COMPONENT_LIST).2 =
        (RUSTUP_COMPONENT_LIST.filter (fun i => !e.isInstalled i)).map
          (fun i => ("rustup", componentArgs i)))
    ∧ ((installLoop e "cargo" subcommandArgs CARGO_SUBCOMMAND_LIST).1 =
        CARGO_SUBCOMMAND_LIST.filter
          (fun i => !e.isInstalled i && !e.execOk "cargo" (subcommandArgs i))
      ∧ (installLoop e "cargo" subcommandArgs CARGO_SUBCOMMAND_LIST).2 =
        (CARGO_SUBCOMMAND_LIST.filter (fun i => !e.isInstalled i)).map
          (fun i => ("cargo", subcommandArgs i)))
    ∧ (∀ i ∈ RUSTUP_COMPONENT_LIST, e.isInstalled i = true →
        ("rustup", componentArgs i) ∉
          (installLoop e "rustup" componentArgs RUSTUP_COMPONENT_LIST).2)
    ∧ (∀ i ∈ CARGO_SUBCOMMAND_LIST, e.isInstalled i = true →
        ("cargo", subcommandArgs i) ∉
          (installLoop e "cargo" subcommandArgs CARGO_SUBCOMMAND_LIST).2) := by
  refine ⟨installLoop_spec e _ _ _, installLoop_spec e _ _ _, ?_, ?_⟩
  · intro i hi hins hmem
    rw [(installLoop_spec e "rustup" componentArgs RUSTUP_COMPONENT_LIST).2] at hmem
    simp only [List.mem_map, List.mem_filter, Prod.mk.injEq] at hmem
    obtain ⟨x, ⟨hxmem, hxni⟩, _, hargs⟩ := hmem
    have hx : x = i := by
      fin_cases hxmem <;> fin_cases hi <;> first
        | rfl
        | exact absurd hargs (by decide)
    rw [hx, hins] at hxni
    exact Bool.noConfusion hxni
  · intro i hi hins hmem
    rw [(installLoop_spec e "cargo" subcommandArgs CARGO_SUBCOMMAND_LIST).2] at hmem
    simp only [List.mem_map, List.mem_filter, Prod.mk.injEq] at hmem
    obtain ⟨x, ⟨hxmem, hxni⟩, _, hargs⟩ := hmem
    have hx : x = i := by
      fin_cases hxmem <;> fin_cases hi <;> first
        | rfl
        | exact absurd hargs (by decide)
    rw [hx, hins] at hxni
    exact Bool.noConfusion hxni

/-- C6 witness: at an environment where everything is present, the
`rustfmt` install command is absent from the trace. -/
theorem install_phases_probe_before_install_witness :
    ("rustup", componentArgs "rustfmt") ∉
      (installLoop ⟨fun _ => true, fun _ _ => true⟩ "rustup" componentArgs
        RUSTUP_COMPONENT_LIST).2 :=
  (install_phases_probe_before_install ⟨fun _ => true, fun _ _ => true⟩).2.2.1
    "rustfmt" (by decide) (by decide)

/-- C3: an input whose whole text matches the remote-repository shape
(scheme or `user@host` prefix, colon, path body, `.git` suffix, optional
trailing slash) is classified as `RemoteRepository` wrapping the input
verbatim, and the classification never consults the filesystem. -/
theorem remote_shape_classified_verbatim (fs : FS) (s : String)
    (h : matchFull remotePattern s.toList = true) :
    TargetPath.new fs s = (.ok (.RemoteRepository s), false) := by
  unfold TargetPath.new
  rw [if_pos (searchRE_of_matchFull _ _ h)]

/-- C3 witness at a concrete remote URL. -/
theorem remote_shape_classified_verbatim_witness :
    TargetPath.new ⟨fun _ => false⟩ "https://github.com/hknio/rca.git" =
      (.ok (.RemoteRepository "https://github.com/hknio/rca.git"), false) :=
  remote_shape_classified_verbatim _ _ (by decide)

/-- C4 counterexample: the input
`"see https://github.com/hknio/rca.git for details"` does not match the
remote-repository shape as a whole (no `.git` suffix, spaces), and no
filesystem entry of that name exists, yet `TargetPath::new` classifies it
as a `RemoteRepository` — not the `LocalPathDoesNotExist` error the claim
requires — because the code's regex test is an unanchored substring
search. -/
theorem local_fallback_counterexample :
    matchFull remotePattern
        "see https://github.com/hknio/rca.git for details".toList = false
    ∧ (TargetPath.new ⟨fun _ => false⟩
        "see https://github.com/hknio/rca.git for details").1 =
      .ok (.RemoteRepository "see https://github.com/hknio/rca.git for details")
    ∧ (TargetPath.new ⟨fun _ => false⟩
        "see https://github.com/hknio/rca.git for details").1 ≠
      .error (.LocalPathDoesNotExist
        "see https://github.com/hknio/rca.git for details") := by
  refine ⟨by decide, by rfl, ?_⟩
  have h0 : (TargetPath.new ⟨fun _ => false⟩
      "see https://github.com/hknio/rca.git for details").1 =
      .ok (.RemoteRepository "see https://github.com/hknio/rca.git for details") := rfl
  rw [h0]
  intro hh
  exact Except.noConfusion hh

/-- C4 amended: for every input string in which the remote regex finds no
match anywhere (the code's unanchored search fails), `TargetPath::new`
returns `Path` wrapping exactly the input when a filesystem entry exists,
and otherwise the `LocalPathDoesNotExist` error carrying the input; in
both cases the filesystem is consulted. -/
theorem local_fallback_classification (fs : FS) (s : String)
    (h : searchRE remotePattern s.toList = false) :
    TargetPath.new fs s =
      (if fs.pathExists s then (.ok (.Path s), true)
       else (.error (.LocalPathDoesNotExist s), true)) := by
  unfold TargetPath.new
  rw [if_neg (by rw [h]; exact Bool.false_ne_true)]

/-- C4 amended witness: an existing local path. -/
theorem local_fallback_classification_witness :
    TargetPath.new ⟨fun p => p == "./src"⟩ "./src" = (.ok (.Path "./src"), true) := by
  have := local_fallback_classification ⟨fun p => p == "./src"⟩ "./src" (by decide)
  simpa using this

/-- The directory name the specification prescribes for a remote
reference, modelled from the spec's words for comparison with the code:
the final `/`-segment with a trailing `.git` extension stripped (and only
that extension). -/
def specRepoDirName (git_url : List Char) : List Char :=
  let seg := (splitOnChar '/' git_url).getLastD []
  if ".git".toList.isSuffixOf seg then seg.take (seg.length - 4) else seg

/-- The path the specification prescribes: the spec's directory name
appended to the current working directory. -/
def specCreatePath (cwd git_url : List Char) : List Char :=
  cwd ++ '/' :: specRepoDirName git_url

/-- C7 counterexample: for `https://github.com/user/my.repo.git` the code
derives directory name `my` (everything before the first dot of the last
segment), not `my.repo` (the segment with only the trailing `.git`
stripped) as the claim states. -/
theorem repo_name_counterexample :
    create_path_from_repo_name "/w".toList
        "https://github.com/user/my.repo.git".toList = "/w/my".toList
    ∧ specCreatePath "/w".toList
        "https://github.com/user/my.repo.git".toList = "/w/my.repo".toList
    ∧ create_path_from_repo_name "/w".toList
        "https://github.com/user/my.repo.git".toList ≠
      specCreatePath "/w".toList "https://github.com/user/my.repo.git".toList := by
  refine ⟨by decide, by decide, by decide⟩

/-- C7 amended: the code cuts the final path segment at its first dot;
this agrees with the claim's derivation (strip exactly a trailing `.git`)
whenever the repository stem itself contains no dot.  For such references
the derived path is the stem appended to the current working directory,
deterministically. -/
theorem repo_name_derivation (cwd pre name : List Char)
    (h1 : '.' ∉ name) (h2 : '/' ∉ name) :
    create_path_from_repo_name cwd (pre ++ '/' :: (name ++ ".git".toList)) =
        cwd ++ '/' :: name
    ∧ specCreatePath cwd (pre ++ '/' :: (name ++ ".git".toList)) =
        cwd ++ '/' :: name := by
  have hseg : (splitOnChar '/' (pre ++ '/' :: (name ++ ".git".toList))).getLastD []
      = name ++ ".git".toList := by
    rw [getLastD_splitOnChar_append]
    rw [splitOnChar_eq_single '/' _ (by
      simp only [List.mem_append, not_or]
      exact ⟨h2, by decide⟩)]
    rfl
  constructor
  · unfold create_path_from_repo_name
    rw [hseg, show name ++ ".git".toList = name ++ '.' :: "git".toList from rfl,
      splitOnChar_append_cons '.' name _ h1]
    rfl
  · unfold specCreatePath specRepoDirName
    rw [hseg]
    rw [if_pos (by
      have hsuf : ".git".toList.isSuffixOf (name ++ ".git".toList) = true := by
        simp [List.isSuffixOf]
      exact hsuf)]
    have h4 : (".git".toList).length = 4 := by decide
    have hlen : (name ++ ".git".toList).length - 4 = name.length := by
      rw [List.length_append, h4]
      omega
    rw [hlen, List.take_left]

/-- C7 witness at a concrete reference. -/
theorem repo_name_derivation_witness :
    create_path_from_repo_name "/w".toList
        ("https://github.com".toList ++ '/' :: ("rca".toList ++ ".git".toList)) =
        "/w".toList ++ '/' :: "rca".toList
    ∧ specCreatePath "/w".toList
        ("https://github.com".toList ++ '/' :: ("rca".toList ++ ".git".toList)) =
        "/w".toList ++ '/' :: "rca".toList :=
  repo_name_derivation _ _ _ (by decide) (by decide)

/-- C8: materialization is idempotent — both calls return the same derived
path, and provided the first call left the derived directory existing
(which the spec's clone collaborator contract guarantees), the second call
performs no fetch. -/
theorem download_idempotent (cwd : List Char) (fs : List (List Char))
    (cloneEff : List (List Char) → List Char → List (List Char))
    (url : List Char)
    (h : create_path_from_repo_name cwd url ∈
      (download_from_git cwd fs cloneEff url).fs) :
    ((download_from_git cwd (download_from_git cwd fs cloneEff url).fs
        cloneEff url).path = (download_from_git cwd fs cloneEff url).path)
    ∧ (download_from_git cwd (download_from_git cwd fs cloneEff url).fs
        cloneEff url).fetched = false
    ∧ (download_from_git cwd (download_from_git cwd fs cloneEff url).fs
        cloneEff url).fs = (download_from_git cwd fs cloneEff url).fs := by
  have hpath : ∀ f, (download_from_git cwd f cloneEff url).path =
      create_path_from_repo_name cwd url := by
    intro f
    unfold download_from_git
    split <;> rfl
  have hmem : ∀ f, create_path_from_repo_name cwd url ∈ f →
      download_from_git cwd f cloneEff url =
        ⟨create_path_from_repo_name cwd url, f, false⟩ := by
    intro f hf
    unfold download_from_git
    rw [if_pos hf]
  refine ⟨?_, ?_, ?_⟩
  · rw [hmem _ h, hpath fs]
  · rw [hmem _ h]
  · rw [hmem _ h]

/-- C8 witness: cloning `rca.git` into an empty directory and downloading
again. -/
theorem download_idempotent_witness :
    ((download_from_git "/w".toList
        (download_from_git "/w".toList [] (fun f _ => "/w/rca".toList :: f)
          "https://github.com/hknio/rca.git".toList).fs
        (fun f _ => "/w/rca".toList :: f)
        "https://github.com/hknio/rca.git".toList).path =
      (download_from_git "/w".toList [] (fun f _ => "/w/rca".toList :: f)
        "https://github.com/hknio/rca.git".toList).path)
    ∧ (download_from_git "/w".toList
        (download_from_git "/w".toList [] (fun f _ => "/w/rca".toList :: f)
          "https://github.com/hknio/rca.git".toList).fs
        (fun f _ => "/w/rca".toList :: f)
        "https://github.com/hknio/rca.git".toList).fetched = false
    ∧ (download_from_git "/w".toList
        (download_from_git "/w".toList [] (fun f _ => "/w/rca".toList :: f)
          "https://github.com/hknio/rca.git".toList).fs
        (fun f _ => "/w/rca".toList :: f)
        "https://github.com/hknio/rca.git".toList).fs =
      (download_from_git "/w".toList [] (fun f _ => "/w/rca".toList :: f)
        "https://github.com/hknio/rca.git".toList).fs :=
  download_idempotent _ _ _ _ (by decide)

/-- C10: a dash-separated range token with start greater than end expands
to no line numbers at all (`(start..=end)` is empty), and the file section
parse succeeds; concretely, `"src/lib.rs: 20-12, 5"` parses to uncovered
lines `[5]`. -/
theorem reversed_range_expands_empty (a b : List Char)
    (ha : a.all Char.isDigit = true) (ha' : a ≠ []) (hva : digitsVal a < 2 ^ 32)
    (hb : b.all Char.isDigit = true) (hb' : b ≠ []) (hvb : digitsVal b < 2 ^ 32)
    (hgt : digitsVal b < digitsVal a) :
    expandToken (a ++ '-' :: b) = some []
    ∧ parse_each_file_uncovered_lines ["src/lib.rs: 20-12, 5".toList] =
        some [{ name := "src/lib.rs".toList, uncovered_lines := [5] }] := by
  constructor
  · have hmem : (a ++ '-' :: b).contains '-' = true :=
      List.elem_eq_true_of_mem (by simp)
    have hna : '-' ∉ a := not_mem_of_all_digit '-' a ha (by decide)
    have hnb : '-' ∉ b := not_mem_of_all_digit '-' b hb (by decide)
    unfold expandToken
    rw [if_pos hmem, splitOnChar_append_cons '-' a b hna,
      splitOnChar_eq_single '-' b hnb]
    simp only [Option.bind_eq_bind, List.get?_cons_zero, List.get?_cons_succ,
      Option.some_bind, Option.pure_def]
    rw [parseU32_digits a ha ha' hva, parseU32_digits b hb hb' hvb]
    simp only [Option.some_bind]
    have hrange : List.range' (digitsVal a) (digitsVal b + 1 - digitsVal a) =
        [] := by
      have hz : digitsVal b + 1 - digitsVal a = 0 := by omega
      rw [hz]
      rfl
    rw [hrange]
  · decide

/-- C10 witness: the theorem applied at the reversed range `20-12`. -/
theorem reversed_range_expands_empty_witness :
    expandToken ("20".toList ++ '-' :: "12".toList) = some []
    ∧ parse_each_file_uncovered_lines ["src/lib.rs: 20-12, 5".toList] =
        some [{ name := "src/lib.rs".toList, uncovered_lines := [5] }] :=
  reversed_range_expands_empty "20".toList "12".toList (by decide) (by decide)
    (by decide) (by decide) (by decide) (by decide) (by decide)

/-- C9 counterexample: the summary `"60% coverage, 12/10 lines covered"`
parses successfully to covered-line count 12 and total-line count 10,
violating `num_covered_lines <= total_lines`. -/
theorem coverage_invariant_counterexample :
    parse_total_coverage_data "60% coverage, 12/10 lines covered".toList =
      some { file_coverage := [], total_coverage_percentage := 60,
             num_covered_lines := 12, total_lines := 10 }
    ∧ ¬ ((12 : Nat) ≤ 10) := ⟨by decide, by decide⟩

/-- C9 amended: `parse_total_coverage_data` copies the covered and total
counts verbatim from the `covered/total` token without enforcing any
relation between them, so `num_covered_lines <= total_lines` holds exactly
when the input's numerator does not exceed its denominator. -/
theorem coverage_counts_copied_verbatim (cd td : List Char)
    (h1 : cd.all Char.isDigit = true) (h2 : cd ≠ []) (h3 : digitsVal cd < 2 ^ 32)
    (h4 : td.all Char.isDigit = true) (h5 : td ≠ []) (h6 : digitsVal td < 2 ^ 32) :
    parse_total_coverage_data
        ("50% coverage".toList ++ ',' :: ' ' ::
          (cd ++ '/' :: (td ++ " lines covered".toList))) =
      some { file_coverage := [], total_coverage_percentage := 50,
             num_covered_lines := digitsVal cd, total_lines := digitsVal td } := by
  have hdig : ∀ (c : Char), c.isDigit = false → c ∉ cd ∧ c ∉ td :=
    fun c hc => ⟨not_mem_of_all_digit c cd h1 hc, not_mem_of_all_digit c td h4 hc⟩
  -- the comma split isolates the two fields
  have hcomma : splitOnChar ','
      ("50% coverage".toList ++ ',' :: ' ' ::
        (cd ++ '/' :: (td ++ " lines covered".toList))) =
      ["50% coverage".toList,
       ' ' :: (cd ++ '/' :: (td ++ " lines covered".toList))] := by
    rw [splitOnChar_append_cons ',' _ _ (by decide)]
    rw [splitOnChar_eq_single ',' _ (by
      intro hm
      rcases List.mem_cons.1 hm with hm | hm
      · exact absurd hm (by decide)
      rcases List.mem_append.1 hm with hm | hm
      · exact (hdig ',' (by decide)).1 hm
      rcases List.mem_cons.1 hm with hm | hm
      · exact absurd hm (by decide)
      rcases List.mem_append.1 hm with hm | hm
      · exact (hdig ',' (by decide)).2 hm
      · exact absurd hm (by decide))]
  -- trimming the second field drops only its leading space
  obtain ⟨c0, cd', rfl⟩ : ∃ c0 cd', cd = c0 :: cd' := by
    cases cd with
    | nil => exact absurd rfl h2
    | cons x xs => exact ⟨x, xs, rfl⟩
  have hc0 : c0.isDigit = true := by
    rw [List.all_eq_true] at h1
    exact h1 c0 (by simp)
  have htrim : trimChars (' ' :: ((c0 :: cd') ++ '/' ::
      (td ++ " lines covered".toList))) =
      (c0 :: cd') ++ '/' :: (td ++ " lines covered".toList) := by
    rw [trimChars_cons_space]
    have hshape : (c0 :: cd') ++ '/' :: (td ++ " lines covered".toList) =
        c0 :: ((cd' ++ '/' :: (td ++ " lines covere".toList)) ++ ['d']) := by
      simp [List.append_assoc]
    rw [hshape, trimChars_eq_self c0 'd' _
      (not_whitespace_of_isDigit c0 hc0) (by decide)]
  -- the space split isolates the `covered/total` token
  have hspace : splitOnChar ' '
      ((c0 :: cd') ++ '/' :: (td ++ " lines covered".toList)) =
      ((c0 :: cd') ++ '/' :: td) :: splitOnChar ' ' "lines covered".toList := by
    have hshape : (c0 :: cd') ++ '/' :: (td ++ " lines covered".toList) =
        ((c0 :: cd') ++ '/' :: td) ++ ' ' :: "lines covered".toList := by
      simp [List.append_assoc]
    rw [hshape, splitOnChar_append_cons ' ' _ _ (by
      intro hm
      rcases List.mem_append.1 hm with hm | hm
      · exact (hdig ' ' (by decide)).1 hm
      rcases List.mem_cons.1 hm with hm | hm
      · exact absurd hm (by decide)
      · exact (hdig ' ' (by decide)).2 hm)]
  -- the slash split separates covered from total
  have hslash : splitOnChar '/' ((c0 :: cd') ++ '/' :: td) = [c0 :: cd', td] := by
    rw [splitOnChar_append_cons '/' _ _ (hdig '/' (by decide)).1,
      splitOnChar_eq_single '/' td (hdig '/' (by decide)).2]
  unfold parse_total_coverage_data
  simp only [Option.bind_eq_bind]
  rw [hcomma]
  simp only [List.map_cons, List.map_nil, List.get?_cons_zero, List.get?_cons_succ,
    Option.some_bind]
  rw [htrim]
  have ht0 : trimChars "50% coverage".toList = "50% coverage".toList := by decide
  rw [ht0]
  have hpct : parseF64 ((splitOnChar '%' "50% coverage".toList).headD []) =
      some 50 := by decide
  rw [hpct]
  simp only [Option.some_bind]
  rw [hspace]
  simp only [List.headD_cons]
  rw [hslash]
  simp only [List.get?_cons_zero, List.get?_cons_succ, Option.some_bind]
  rw [parseU32_digits _ h1 h2 h3, parseU32_digits _ h4 h5 h6]
  simp only [Option.some_bind, Option.pure_def]

/-- C9 amended witness: the theorem applied at covered `12`, total `10`
(the counts are copied verbatim even when the invariant fails). -/
theorem coverage_counts_copied_verbatim_witness :
    parse_total_coverage_data
        ("50% coverage".toList ++ ',' :: ' ' ::
          ("12".toList ++ '/' :: ("10".toList ++ " lines covered".toList))) =
      some { file_coverage := [], total_coverage_percentage := 50,
             num_covered_lines := digitsVal "12".toList,
             total_lines := digitsVal "10".toList } :=
  coverage_counts_copied_verbatim "12".toList "10".toList (by decide) (by decide)
    (by decide) (by decide) (by decide) (by decide)

/-- C5 counterexample: on the claim's exact input — whose per-key objects
carry only `code`/`comments`/`blanks` (and `inaccurate` for `"Total"`) —
`parse_sloc_json` panics (`remove("reports").unwrap()` on a missing key),
so it does not return the claimed `Sloc`. -/
theorem sloc_roundtrip_counterexample :
    parse_sloc_json
        [("Rust", .obj [("blanks", .num 5), ("code", .num 100), ("comments", .num 10)]),
         ("Total", .obj [("blanks", .num 5), ("code", .num 100),
                         ("comments", .num 10), ("inaccurate", .bool false)])] = none
    ∧ parse_sloc_json
        [("Rust", .obj [("blanks", .num 5), ("code", .num 100), ("comments", .num 10)]),
         ("Total", .obj [("blanks", .num 5), ("code", .num 100),
                         ("comments", .num 10), ("inaccurate", .bool false)])] ≠
      some { language_info :=
               [{ language := "Rust", blanks := 5, code := 100, comments := 10 }],
             code := 100, comments := 10, inaccurate := false } := by
  exact ⟨by rfl, by decide⟩

/-- C5 amended: on inputs whose per-key objects additionally carry the
`reports` and `children` members that the parser removes and discards, the
claim holds — the claim's example extended with those members yields
exactly one `LanguageInfo` for `"Rust"` and the `"Total"` entry is
extracted into the scalar fields; in general every key other than
`"Total"` contributes exactly one `LanguageInfo` (in iteration order) and
no `"Total"` member remains in the language list. -/
theorem sloc_total_extraction :
    parse_sloc_json
        [("Rust", .obj [("blanks", .num 5), ("children", .arr []),
                        ("code", .num 100), ("comments", .num 10),
                        ("reports", .arr [])]),
         ("Total", .obj [("blanks", .num 5), ("children", .arr []),
                         ("code", .num 100), ("comments", .num 10),
                         ("inaccurate", .bool false), ("reports", .arr [])])] =
      some { language_info :=
               [{ language := "Rust", blanks := 5, code := 100, comments := 10 }],
             code := 100, comments := 10, inaccurate := false }
    ∧ (∀ (entries : List (String × Json)) (r : Sloc),
        parse_sloc_json entries = some r →
        r.language_info.map (fun li => li.language) =
          (entries.map Prod.fst).filter (fun k => k ≠ "Total")) := by
  constructor
  · rfl
  · intro entries r h
    unfold parse_sloc_json at h
    have := sloc_fold_languages entries
      { language_info := [], code := 0, comments := 0, inaccurate := false } r h
    simpa using this

/-- C5 witness: the general language-list property applied at the
extended example input. -/
theorem sloc_total_extraction_witness :
    ({ language_info :=
         [{ language := "Rust", blanks := 5, code := 100, comments := 10 }],
       code := 100, comments := 10, inaccurate := false } :
        Sloc).language_info.map (fun li => li.language) =
      ([("Rust",
          Json.obj [("blanks", .num 5), ("children", .arr []),
                    ("code", .num 100), ("comments", .num 10),
                    ("reports", .arr [])]),
        ("Total",
          Json.obj [("blanks", .num 5), ("children", .arr []),
                    ("code", .num 100), ("comments", .num 10),
                    ("inaccurate", .bool false), ("reports", .arr [])])].map
        Prod.fst).filter (fun k => k ≠ "Total") :=
  sloc_total_extraction.2 _ _ (by rfl)

/-- C2 counterexample: a SLOC entry whose object lacks an expected numeric
member makes `parse_sloc_json` panic (modelled `none`) instead of
returning a typed error, and coverage text whose sections lack the
`"Total Lines"` marker makes the coverage parsing step panic
(`position(..).unwrap()`) instead of returning a typed error. -/
theorem parse_errors_typed_counterexample :
    parse_sloc_json [("Rust", .obj [("children", .arr []), ("reports", .arr [])])]
      = none
    ∧ coverageFromOutput "pre1||pre2||src/lib.rs: 5".toList = none := by
  exact ⟨by rfl, by rfl⟩

/-- C2 amended: malformed parser input is not surfaced as a typed error —
it panics (modelled as `none`, with no error value for the caller): any
entry whose object lacks the `reports` member aborts `parse_sloc_json`,
and captured coverage text none of whose sections contains the
`"Total Lines"` marker aborts the coverage parsing step. -/
theorem parse_errors_panic :
    (∀ (key : String) (fields : List (String × Json))
        (rest : List (String × Json)),
        jsonLookup "reports" fields = none →
        parse_sloc_json ((key, Json.obj fields) :: rest) = none)
    ∧ (∀ (raw : List Char) (sections : List (List Char)),
        parse_tarpaulin_output raw = some sections →
        (∀ s ∈ sections, isSubstr "Total Lines".toList s = false) →
        coverageFromOutput raw = none) := by
  constructor
  · intro key fields rest h
    have hfind : fields.find? (fun kv => kv.1 = "reports") = none := by
      unfold jsonLookup at h
      exact Option.map_eq_none'.1 h
    have hstep : slocStep
        { language_info := [], code := 0, comments := 0, inaccurate := false }
        (key, Json.obj fields) = none := by
      unfold slocStep
      simp only [Option.bind_eq_bind]
      rw [show (Json.obj fields).asObject = some fields from rfl, Option.some_bind]
      have hrem : jsonRemove "reports" fields = none := by
        unfold jsonRemove
        rw [hfind]
        rfl
      rw [hrem]
      rfl
    unfold parse_sloc_json
    have hfold : List.foldlM slocStep
        ({ language_info := [], code := 0, comments := 0, inaccurate := false } : Sloc)
        ((key, Json.obj fields) :: rest) =
        (slocStep { language_info := [], code := 0, comments := 0, inaccurate := false }
          (key, Json.obj fields)).bind
          (fun acc => List.foldlM slocStep acc rest) := rfl
    rw [hfold, hstep]
    rfl
  · intro raw sections hpt hall
    unfold coverageFromOutput
    simp only [Option.bind_eq_bind]
    rw [hpt, Option.some_bind]
    rw [List.findIdx?_eq_none_iff.mpr hall]
    rfl

/-- C2 amended witness: both panic families at concrete inputs. -/
theorem parse_errors_panic_witness :
    parse_sloc_json [("Rust", Json.obj [])] = none
    ∧ coverageFromOutput "a||b||c".toList = none :=
  ⟨parse_errors_panic.1 "Rust" [] [] (by rfl),
   parse_errors_panic.2 "a||b||c".toList ["c".toList] (by rfl) (by decide)⟩

end Rca
